import Mathlib

/-! Verification of the fdx parallel filesystem walker core: a shallow
embedding of src/walk.rs (receiver state machine, worker callback,
orchestration), src/output.rs (line formatting, sink error handling) and
src/filesystem.rs (path stripping), with proofs of the specified
properties. Timing is abstracted into explicit timeout events of the
receive loop; the output sink is modelled by a script giving the result
of each write or flush operation. -/

namespace Fdx

/-- Modelled from the spec: the file-type classification of an entry
(regular, directory, symlink or other); the concrete type lives in the
dir_entry module, which is not among the sources at hand. -/
inductive FileType
  | regular
  | directory
  | symlink
  | other
  deriving DecidableEq

/-- Modelled from the spec: whether a file type is the directory
classification (std FileType is_dir). -/
def FileType.isDirectory : FileType → Bool
  | .directory => true
  | _ => false

/-- Modelled from the spec: an entry is the normalized record of one
discovered filesystem object: its path (modelled as a string), its depth
(0 for the search root) and an optional file-type classification. The
concrete DirEntry struct lives in the dir_entry module, which is not
among the sources at hand. -/
structure DirEntry where
  path : String
  depth : Nat
  fileType : Option FileType
  deriving DecidableEq

/-- Modelled from the spec: DirEntry is total-ordered by path (the Ord
implementation of the dir_entry module, used by Vec sort in stop). -/
def DirEntry.le (a b : DirEntry) : Prop := a.path ≤ b.path

instance : DecidableRel DirEntry.le := fun a b =>
  inferInstanceAs (Decidable (a.path ≤ b.path))

instance : IsTotal DirEntry DirEntry.le :=
  ⟨fun a b => le_total a.path b.path⟩

instance : IsTrans DirEntry DirEntry.le :=
  ⟨fun _ _ _ h h2 => le_trans h h2⟩

/-- Translation of filesystem.rs strip_current_dir: remove the leading
current-directory component from a path; on the string model of paths,
strip_prefix of the dot component maps the lone dot to the empty path,
removes a leading dot-slash, and leaves every other path unchanged. -/
def strip_current_dir (p : String) : String :=
  if p = "." then "" else if p.startsWith "./" then p.drop 2 else p

/-- Modelled from the spec: stripped_path of DirEntry (dir_entry module,
not among the sources at hand): the display path with any leading
current-directory prefix stripped, via filesystem.rs strip_current_dir. -/
def DirEntry.stripped_path (e : DirEntry) : String := strip_current_dir e.path

/-- The platform path separator std MAIN_SEPARATOR on the unix build of
output.rs. -/
def MAIN_SEPARATOR : Char := '/'

/-- Translation of output.rs print_trailing_slash (without styling): the
chunks written after the path, a single platform separator when the
entry has the directory file type, nothing otherwise. -/
def print_trailing_slash (e : DirEntry) : List String :=
  if (e.fileType.map FileType.isDirectory).getD false then
    [String.singleton MAIN_SEPARATOR]
  else []

/-- Translation of output.rs print_entry_uncolorized_base: the sequence
of chunks written to the sink for one entry: the stripped display path,
the optional trailing separator, then the line terminator. -/
def print_entry_chunks (e : DirEntry) : List String :=
  [e.stripped_path] ++ print_trailing_slash e ++ ["\n"]

/-- The full text that print_entry writes to the sink for one entry. -/
def printed_line (e : DirEntry) : String :=
  String.join (print_entry_chunks e)

/-- Modelled from the spec: the exit classification (exit_codes module,
not among the sources at hand): success with or without results, a
general error, and a distinct code for interrupted termination;
constructor names follow their uses in walk.rs and output.rs. -/
inductive ExitCode
  | Success
  | HasResults (b : Bool)
  | GeneralError
  | KilledBySigint
  deriving DecidableEq

/-- Kind of an I/O failure of the output sink, as far as print_entry
distinguishes failures: a broken pipe or anything else. -/
inductive SinkErrorKind
  | brokenPipe
  | other
  deriving DecidableEq

/-- Behavior of the output sink: the result of its k-th write or flush
operation (none means success). -/
abbrev SinkBehavior := Nat → Option SinkErrorKind

/-- The sink on which every operation succeeds. -/
def sinkOk : SinkBehavior := fun _ => none

/-- Translation of walk.rs const MAX_BUFFER_LENGTH. -/
def MAX_BUFFER_LENGTH : Nat := 1000

/-- Translation of walk.rs ReceiverMode. -/
inductive ReceiverMode
  | Buffering
  | Streaming
  deriving DecidableEq

/-- Translation of walk.rs WorkerResult: a channel message, an entry or
a traversal error (the error payload abstracted to its message). -/
inductive WorkerResult
  | Entry (e : DirEntry)
  | Error (msg : String)
  deriving DecidableEq

/-- Translation of walk.rs ReceiverBuffer: the consumer state. The
stdout handle is modelled by the list of entries successfully printed
(out), the count of sink operations performed so far (indexing the sink
behavior) and the messages printed to stderr (err_log); the deadline is
abstracted into timeout events of the receive loop. -/
structure ReceiverBuffer where
  quit_flag : Bool
  interrupt_flag : Bool
  mode : ReceiverMode
  buffer : List DirEntry
  num_results : Nat
  out : List DirEntry
  sink_ops : Nat
  err_log : List String
  deriving DecidableEq

/-- How a call inside the receive loop aborts: errCode is an
Err(ExitCode) propagating back to process (from flush or stop); exited
is a direct process exit performed inside output.rs print_entry. Both
carry the receiver state at that point. -/
inductive Halt
  | errCode (ec : ExitCode) (st : ReceiverBuffer)
  | exited (ec : ExitCode) (st : ReceiverBuffer)
  deriving DecidableEq

/-- The receiver state carried by a halt. -/
def Halt.state : Halt → ReceiverBuffer
  | .errCode _ st => st
  | .exited _ st => st

/-- Outcome of one recv call of the receive loop: a worker message, the
buffering-deadline timeout (recv_timeout while Buffering), or channel
disconnect. A list of these events abstracts the channel content and
the clock driving walk.rs recv. -/
inductive RecvOutcome
  | msg (w : WorkerResult)
  | timeout
  | disconnected
  deriving DecidableEq

/-- The entries carried by a sequence of recv outcomes, in order. -/
def receivedEntries (events : List RecvOutcome) : List DirEntry :=
  events.filterMap fun ev =>
    match ev with
    | .msg (.Entry e) => some e
    | _ => none

namespace ReceiverBuffer

/-- Translation of output.rs print_entry as invoked from walk.rs print:
one sink write of the entry line; on a broken-pipe write error the
process exits with Success; on any other write error a message is
printed to stderr and the process exits with GeneralError. -/
def print (σ : SinkBehavior) (st : ReceiverBuffer) (e : DirEntry) :
    Except Halt ReceiverBuffer :=
  match σ st.sink_ops with
  | none =>
    .ok { st with out := st.out ++ [e], sink_ops := st.sink_ops + 1 }
  | some .brokenPipe => .error (.exited .Success st)
  | some .other =>
    .error (.exited .GeneralError
      { st with err_log := st.err_log ++ ["Could not write to output"] })

/-- Translation of walk.rs flush: flush the sink; any flush error yields
Err(GeneralError). -/
def flush (σ : SinkBehavior) (st : ReceiverBuffer) :
    Except Halt ReceiverBuffer :=
  match σ st.sink_ops with
  | none => .ok { st with sink_ops := st.sink_ops + 1 }
  | some _ => .error (.errCode .GeneralError st)

/-- The for loop of walk.rs stream: print each buffered entry in order,
propagating the first failure. -/
def printAll (σ : SinkBehavior) (st : ReceiverBuffer) :
    List DirEntry → Except Halt ReceiverBuffer
  | [] => .ok st
  | e :: rest =>
    match print σ st e with
    | .ok st' => printAll σ st' rest
    | .error h => .error h

/-- Translation of walk.rs stream: switch the mode to Streaming, take
the buffer (leaving it empty), print every taken entry in order, then
flush. -/
def stream (σ : SinkBehavior) (st : ReceiverBuffer) :
    Except Halt ReceiverBuffer :=
  let taken := st.buffer
  let st' := { st with mode := .Streaming, buffer := [] }
  match printAll σ st' taken with
  | .ok st'' => flush σ st''
  | .error h => .error h

/-- Translation of walk.rs stop: on disconnect, sort the buffer (Vec
sort, a stable sort by the path order) and flush it via stream when
still Buffering, then return Err(HasResults(num_results greater than
zero)). -/
def stop (σ : SinkBehavior) (st : ReceiverBuffer) :
    Except Halt ReceiverBuffer :=
  match
    (if st.mode = .Buffering then
      stream σ { st with buffer := List.insertionSort DirEntry.le st.buffer }
    else .ok st) with
  | .ok st' =>
    .error (.errCode (.HasResults (decide (0 < st'.num_results))) st')
  | .error h => .error h

/-- Translation of walk.rs poll: process one recv outcome. An entry is
buffered (switching to Streaming when the buffer exceeds
MAX_BUFFER_LENGTH) or printed and flushed, and counted; a traversal
error message is printed to stderr; a timeout flushes the buffer and
switches to Streaming; a disconnect stops. -/
def poll (σ : SinkBehavior) (st : ReceiverBuffer) (ev : RecvOutcome) :
    Except Halt ReceiverBuffer :=
  match ev with
  | .msg (.Entry e) =>
    match st.mode with
    | .Buffering =>
      let st₁ := { st with buffer := st.buffer ++ [e] }
      if MAX_BUFFER_LENGTH < st₁.buffer.length then
        match stream σ st₁ with
        | .ok st' => .ok { st' with num_results := st'.num_results + 1 }
        | .error h => .error h
      else
        .ok { st₁ with num_results := st₁.num_results + 1 }
    | .Streaming =>
      match print σ st e with
      | .ok st' =>
        match flush σ st' with
        | .ok st'' => .ok { st'' with num_results := st''.num_results + 1 }
        | .error h => .error h
      | .error h => .error h
  | .msg (.Error m) => .ok { st with err_log := st.err_log ++ [m] }
  | .timeout => stream σ st
  | .disconnected => stop σ st

/-- Result of running the receive loop on a finite prefix of recv
outcomes: done means process returned an exit code (storing true into
the quit flag first); exited means the process was terminated from
inside print_entry; pending means the events are exhausted with the
loop still running (the state between two loop iterations). -/
inductive ProcResult
  | done (ec : ExitCode) (st : ReceiverBuffer)
  | exited (ec : ExitCode) (st : ReceiverBuffer)
  | pending (st : ReceiverBuffer)
  deriving DecidableEq

/-- The receiver state carried by a loop result. -/
def ProcResult.state : ProcResult → ReceiverBuffer
  | .done _ st => st
  | .exited _ st => st
  | .pending st => st

/-- Translation of walk.rs process: loop over poll until it yields an
exit code, then store true into the shared quit flag and return the
code. -/
def process (σ : SinkBehavior) :
    List RecvOutcome → ReceiverBuffer → ProcResult
  | [], st => .pending st
  | ev :: rest, st =>
    match poll σ st ev with
    | .ok st' => process σ rest st'
    | .error (.errCode ec st') => .done ec { st' with quit_flag := true }
    | .error (.exited ec st') => .exited ec st'

/-- Translation of walk.rs ReceiverBuffer new: the initial state
(Buffering mode, empty buffer, zero results, flags clear except that
the interrupt flag holds whatever the external interrupt mechanism will
have stored by the time it is observed). -/
def new (interrupted : Bool) : ReceiverBuffer :=
  { quit_flag := false
    interrupt_flag := interrupted
    mode := .Buffering
    buffer := []
    num_results := 0
    out := []
    sink_ops := 0
    err_log := [] }

/-- Translation of walk.rs scan, lines 49 to 54: the orchestrator joins
the receiver and overrides its exit code with KilledBySigint when the
interrupt flag is set; when the receiver called a direct process exit
the process already terminated with that code; a pending run has no
classification yet. -/
def scanExit : ProcResult → Option ExitCode
  | .done ec st =>
    some (if st.interrupt_flag then .KilledBySigint else ec)
  | .exited ec _ => some ec
  | .pending _ => none

end ReceiverBuffer

/-- Callback input of the traversal primitive: a discovered object
(carrying the DirEntry it would be normalized to, whose depth is the
callback depth) or a traversal error. -/
inductive WalkEvent
  | ok (e : DirEntry)
  | err (msg : String)
  deriving DecidableEq

/-- Translation of the WalkState answer a spawn_senders callback
returns to the traversal primitive. -/
inductive WalkState
  | Continue
  | Quit
  deriving DecidableEq

/-- Effect of one invocation of the spawn_senders callback: the
messages delivered to the channel (none when the send fails), the walk
state returned for this worker thread, and the shared quit flag after
the call (the closure clones the flag and never stores to it). -/
structure SenderStep where
  sent : List WorkerResult
  walkState : WalkState
  quit_flag : Bool
  deriving DecidableEq

/-- Translation of the walk.rs spawn_senders callback: skip the depth-0
root entry; send an Entry for any other successful callback and an
Error for a traversal error; a failed send (channel closed, modelled by
channelOpen being false) makes only this worker quit its walk. -/
def senderCallback (channelOpen : Bool) (quit_flag : Bool)
    (ev : WalkEvent) : SenderStep :=
  match ev with
  | .ok e =>
    if e.depth = 0 then ⟨[], .Continue, quit_flag⟩
    else if channelOpen then ⟨[.Entry e], .Continue, quit_flag⟩
    else ⟨[], .Quit, quit_flag⟩
  | .err m =>
    if channelOpen then ⟨[.Error m], .Continue, quit_flag⟩
    else ⟨[], .Quit, quit_flag⟩

end Fdx

namespace Fdx
namespace ReceiverBuffer

lemma print_ok {σ : SinkBehavior} {st : ReceiverBuffer} {e : DirEntry}
    {st' : ReceiverBuffer} (h : print σ st e = .ok st') :
    st' = { st with out := st.out ++ [e], sink_ops := st.sink_ops + 1 } := by
  cases hσ : σ st.sink_ops with
  | none => simp [print, hσ] at h; exact h.symm
  | some k => cases k <;> simp [print, hσ] at h

lemma print_halt {σ : SinkBehavior} {st : ReceiverBuffer} {e : DirEntry}
    {hl : Halt} (h : print σ st e = .error hl) :
    ∃ ec st₂, hl = .exited ec st₂ ∧ st₂.quit_flag = st.quit_flag ∧
      st₂.interrupt_flag = st.interrupt_flag ∧ st₂.mode = st.mode ∧
      st₂.buffer = st.buffer ∧ st₂.num_results = st.num_results ∧
      st₂.out = st.out := by
  cases hσ : σ st.sink_ops with
  | none => simp [print, hσ] at h
  | some k =>
    cases k <;> simp [print, hσ] at h <;>
      exact ⟨_, _, h.symm, rfl, rfl, rfl, rfl, rfl, rfl⟩

lemma flush_ok {σ : SinkBehavior} {st st' : ReceiverBuffer}
    (h : flush σ st = .ok st') :
    st' = { st with sink_ops := st.sink_ops + 1 } := by
  cases hσ : σ st.sink_ops with
  | none => simp [flush, hσ] at h; exact h.symm
  | some k => simp [flush, hσ] at h

lemma flush_halt {σ : SinkBehavior} {st : ReceiverBuffer} {hl : Halt}
    (h : flush σ st = .error hl) : hl = .errCode .GeneralError st := by
  cases hσ : σ st.sink_ops with
  | none => simp [flush, hσ] at h
  | some k => simp [flush, hσ] at h; exact h.symm

lemma printAll_ok {σ : SinkBehavior} {l : List DirEntry} :
    ∀ {st st' : ReceiverBuffer}, printAll σ st l = .ok st' →
      st'.out = st.out ++ l ∧ st'.mode = st.mode ∧
      st'.buffer = st.buffer ∧ st'.num_results = st.num_results ∧
      st'.quit_flag = st.quit_flag ∧
      st'.interrupt_flag = st.interrupt_flag ∧ st'.err_log = st.err_log := by
  induction l with
  | nil =>
    intro st st' h
    simp [printAll] at h
    simp [h]
  | cons e rest ih =>
    intro st st' h
    rw [printAll] at h
    cases hp : print σ st e with
    | ok st₁ =>
      rw [hp] at h
      obtain ⟨h1, h2, h3, h4, h5, h6, h7⟩ := ih h
      rw [print_ok hp] at h1 h2 h3 h4 h5 h6 h7
      simp_all
    | error hl => rw [hp] at h; simp at h

lemma printAll_halt {σ : SinkBehavior} {l : List DirEntry} :
    ∀ {st : ReceiverBuffer} {hl : Halt}, printAll σ st l = .error hl →
      ∃ ec st₂, hl = .exited ec st₂ ∧ st₂.quit_flag = st.quit_flag ∧
        st₂.interrupt_flag = st.interrupt_flag ∧ st₂.mode = st.mode ∧
        st₂.buffer = st.buffer ∧ st₂.num_results = st.num_results ∧
        ∃ t, st₂.out = st.out ++ t ∧ List.Subperm t l := by
  induction l with
  | nil => intro st hl h; simp [printAll] at h
  | cons e rest ih =>
    intro st hl h
    rw [printAll] at h
    cases hp : print σ st e with
    | ok st₁ =>
      rw [hp] at h
      obtain ⟨ec, st₂, rfl, h1, h2, h3, h4, h5, t, h6, h7⟩ := ih h
      have he := print_ok hp
      subst he
      refine ⟨ec, st₂, rfl, h1, h2, h3, by simpa using h4, h5, e :: t, ?_, ?_⟩
      · simpa using h6
      · obtain ⟨w, hwp, hws⟩ := h7
        exact ⟨e :: w, hwp.cons e, hws.cons₂ e⟩
    | error hl' =>
      rw [hp] at h
      simp at h
      subst h
      obtain ⟨ec, st₂, rfl, h1, h2, h3, h4, h5, h6⟩ := print_halt hp
      exact ⟨ec, st₂, rfl, h1, h2, h3, h4, h5, [], by simpa using h6,
        List.nil_subperm⟩

lemma stream_ok {σ : SinkBehavior} {st st' : ReceiverBuffer}
    (h : stream σ st = .ok st') :
    st'.mode = .Streaming ∧ st'.buffer = [] ∧
    st'.out = st.out ++ st.buffer ∧ st'.num_results = st.num_results ∧
    st'.quit_flag = st.quit_flag ∧ st'.interrupt_flag = st.interrupt_flag := by
  rw [stream] at h
  cases hp : printAll σ { st with mode := .Streaming, buffer := [] } st.buffer with
  | ok st₁ =>
    rw [hp] at h
    obtain ⟨h1, h2, h3, h4, h5, h6, h7⟩ := printAll_ok hp
    have hf := flush_ok h
    subst hf
    simp_all
  | error hl => rw [hp] at h; simp at h

lemma stream_halt {σ : SinkBehavior} {st : ReceiverBuffer} {hl : Halt}
    (h : stream σ st = .error hl) :
    ∃ ec st₂, (hl = .exited ec st₂ ∨ hl = .errCode ec st₂) ∧
      st₂.mode = .Streaming ∧ st₂.buffer = [] ∧
      st₂.num_results = st.num_results ∧ st₂.quit_flag = st.quit_flag ∧
      st₂.interrupt_flag = st.interrupt_flag ∧
      ∃ t, st₂.out = st.out ++ t ∧ List.Subperm t st.buffer := by
  rw [stream] at h
  cases hp : printAll σ { st with mode := .Streaming, buffer := [] } st.buffer with
  | ok st₁ =>
    rw [hp] at h
    obtain ⟨h1, h2, h3, h4, h5, h6, h7⟩ := printAll_ok hp
    have hf := flush_halt h
    subst hf
    exact ⟨.GeneralError, st₁, .inr rfl, by simpa using h2, by simpa using h3,
      by simpa using h4, by simpa using h5, by simpa using h6,
      st.buffer, by simpa using h1, List.Subperm.refl _⟩
  | error hl' =>
    rw [hp] at h
    simp at h
    subst h
    obtain ⟨ec, st₂, rfl, h1, h2, h3, h4, h5, t, h6, h7⟩ := printAll_halt hp
    exact ⟨ec, st₂, .inl rfl, by simpa using h3, by simpa using h4,
      by simpa using h5, by simpa using h1, by simpa using h2,
      t, by simpa using h6, h7⟩

end ReceiverBuffer
end Fdx

namespace Fdx
namespace ReceiverBuffer

lemma poll_timeout (σ : SinkBehavior) (st : ReceiverBuffer) :
    poll σ st .timeout = stream σ st := rfl

lemma poll_disconnected (σ : SinkBehavior) (st : ReceiverBuffer) :
    poll σ st .disconnected = stop σ st := rfl

lemma poll_error_msg (σ : SinkBehavior) (st : ReceiverBuffer) (m : String) :
    poll σ st (.msg (.Error m)) =
      .ok { st with err_log := st.err_log ++ [m] } := rfl

lemma poll_entry_buffering_small {σ : SinkBehavior} {st : ReceiverBuffer}
    {e : DirEntry} (hm : st.mode = .Buffering)
    (hlen : st.buffer.length < MAX_BUFFER_LENGTH) :
    poll σ st (.msg (.Entry e)) =
      .ok { st with buffer := st.buffer ++ [e],
                    num_results := st.num_results + 1 } := by
  have hcond : ¬ MAX_BUFFER_LENGTH <
      ({ st with buffer := st.buffer ++ [e] } : ReceiverBuffer).buffer.length := by
    simp only [List.length_append, List.length_cons, List.length_nil]
    omega
  simp only [poll, hm, hcond, if_false]

lemma poll_entry_buffering_trigger {σ : SinkBehavior} {st : ReceiverBuffer}
    {e : DirEntry} (hm : st.mode = .Buffering)
    (hlen : MAX_BUFFER_LENGTH ≤ st.buffer.length) :
    poll σ st (.msg (.Entry e)) =
      match stream σ { st with buffer := st.buffer ++ [e] } with
      | .ok st' => .ok { st' with num_results := st'.num_results + 1 }
      | .error h => .error h := by
  have hcond : MAX_BUFFER_LENGTH <
      ({ st with buffer := st.buffer ++ [e] } : ReceiverBuffer).buffer.length := by
    simp only [List.length_append, List.length_cons, List.length_nil]
    omega
  simp only [poll, hm, hcond, if_true]

lemma poll_entry_streaming {σ : SinkBehavior} {st : ReceiverBuffer}
    {e : DirEntry} (hm : st.mode = .Streaming) :
    poll σ st (.msg (.Entry e)) =
      match print σ st e with
      | .ok st' =>
        match flush σ st' with
        | .ok st'' => .ok { st'' with num_results := st''.num_results + 1 }
        | .error h => .error h
      | .error h => .error h := by
  simp only [poll, hm]

lemma stop_not_ok {σ : SinkBehavior} {st st' : ReceiverBuffer}
    (h : stop σ st = .ok st') : False := by
  rw [stop] at h
  split at h <;> simp at h

/-- The receiver invariant: while Buffering the buffer never exceeds the
threshold between loop iterations, and while Streaming the buffer is
empty. -/
def Inv (st : ReceiverBuffer) : Prop :=
  (st.mode = .Buffering → st.buffer.length ≤ MAX_BUFFER_LENGTH) ∧
  (st.mode = .Streaming → st.buffer = [])

lemma new_inv (i : Bool) : Inv (new i) := by
  constructor <;> intro _ <;> simp [new]

lemma stream_halt_errCode {σ : SinkBehavior} {st : ReceiverBuffer}
    {ec : ExitCode} {st₂ : ReceiverBuffer}
    (h : stream σ st = .error (.errCode ec st₂)) : ec = .GeneralError := by
  rw [stream] at h
  cases hp : printAll σ { st with mode := .Streaming, buffer := [] } st.buffer with
  | ok st₁ =>
    rw [hp] at h
    have hf := flush_halt h
    injection hf with h1 h2
  | error hl' =>
    rw [hp] at h
    simp at h
    obtain ⟨_, _, heq, _⟩ := printAll_halt hp
    rw [h] at heq
    simp at heq

lemma append_singleton_perm {α : Type _} (a b : List α) (e : α) :
    ((a ++ [e]) ++ b).Perm ((a ++ b) ++ [e]) := by
  rw [List.append_assoc, List.append_assoc]
  exact List.Perm.append_left a List.perm_append_comm

lemma stop_halt_spec {σ : SinkBehavior} {st : ReceiverBuffer} {hl : Halt}
    (h : stop σ st = .error hl) :
    hl.state.quit_flag = st.quit_flag ∧
    hl.state.interrupt_flag = st.interrupt_flag ∧
    List.Subperm (hl.state.out ++ hl.state.buffer) (st.out ++ st.buffer) ∧
    hl.state.num_results = st.num_results ∧
    (∀ ec st₂, hl = .errCode ec st₂ →
      ec = .GeneralError ∨ ec = .HasResults (decide (0 < st₂.num_results))) := by
  cases hif : (if st.mode = .Buffering then
      stream σ { st with buffer := List.insertionSort DirEntry.le st.buffer }
    else .ok st) with
  | ok st₁ =>
    rw [stop, hif] at h
    simp only [Except.error.injEq] at h
    subst h
    by_cases hm : st.mode = .Buffering
    · rw [if_pos hm] at hif
      obtain ⟨h1, h2, h3, h4, h5, h6⟩ := stream_ok hif
      refine ⟨by simpa using h5, by simpa using h6, ?_, by simpa using h4, ?_⟩
      · simp only [Halt.state]
        rw [h2, h3]
        simp only [List.append_nil]
        exact (List.Perm.append_left st.out
          (List.perm_insertionSort DirEntry.le st.buffer)).subperm
      · intro ec st₂ heq
        injection heq with hec hst
        subst hst
        exact Or.inr hec.symm
    · rw [if_neg hm] at hif
      simp only [Except.ok.injEq] at hif
      subst hif
      refine ⟨rfl, rfl, List.Subperm.refl _, rfl, ?_⟩
      intro ec st₂ heq
      injection heq with hec hst
      subst hst
      exact Or.inr hec.symm
  | error hl' =>
    rw [stop, hif] at h
    simp only [Except.error.injEq] at h
    subst h
    by_cases hm : st.mode = .Buffering
    · rw [if_pos hm] at hif
      obtain ⟨ec, st₂, hcase, hmode, hbuf, hnum, hq, hi, t, hout, hsub⟩ :=
        stream_halt hif
      have hstate : hl'.state = st₂ := by
        cases hcase with
        | inl hc => rw [hc]; rfl
        | inr hc => rw [hc]; rfl
      have hsub' : List.Subperm (hl'.state.out ++ hl'.state.buffer)
          (st.out ++ st.buffer) := by
        rw [hstate, hbuf, hout]
        simp only [List.append_nil]
        refine (List.subperm_append_left st.out).mpr ?_
        exact hsub.trans
          (List.perm_insertionSort DirEntry.le st.buffer).subperm
      refine ⟨by rw [hstate]; simpa using hq, by rw [hstate]; simpa using hi,
        by simpa using hsub', by rw [hstate]; simpa using hnum, ?_⟩
      intro ec₂ st₃ heq
      rw [heq] at hif
      exact Or.inl (stream_halt_errCode hif)
    · rw [if_neg hm] at hif
      simp at hif

lemma receivedEntries_nil : receivedEntries [] = [] := rfl

lemma receivedEntries_entry (e : DirEntry) (evs : List RecvOutcome) :
    receivedEntries (.msg (.Entry e) :: evs) = e :: receivedEntries evs := rfl

lemma receivedEntries_error (m : String) (evs : List RecvOutcome) :
    receivedEntries (.msg (.Error m) :: evs) = receivedEntries evs := rfl

lemma receivedEntries_timeout (evs : List RecvOutcome) :
    receivedEntries (.timeout :: evs) = receivedEntries evs := rfl

lemma receivedEntries_disconnected (evs : List RecvOutcome) :
    receivedEntries (.disconnected :: evs) = receivedEntries evs := rfl

lemma poll_ok_spec {σ : SinkBehavior} {st : ReceiverBuffer}
    {ev : RecvOutcome} {st' : ReceiverBuffer} (h : poll σ st ev = .ok st') :
    st'.quit_flag = st.quit_flag ∧
    st'.interrupt_flag = st.interrupt_flag ∧
    List.Subperm (st'.out ++ st'.buffer)
      ((st.out ++ st.buffer) ++ receivedEntries [ev]) ∧
    (st.mode = .Streaming → st'.mode = .Streaming) ∧
    (∃ t, st'.out = st.out ++ t) ∧
    (Inv st → Inv st') := by
  obtain ⟨q, i, m, b, n, o, s, el⟩ := st
  cases ev with
  | msg w =>
    cases w with
    | Entry e =>
      cases m with
      | Buffering =>
        simp only [poll] at h
        split at h
        · -- size trigger: the buffer is flushed via stream
          split at h
          · rename_i st₂ hs
            simp only [Except.ok.injEq] at h
            subst h
            obtain ⟨h1, h2, h3, h4, h5, h6⟩ := stream_ok hs
            refine ⟨by simpa using h5, by simpa using h6, ?_, ?_, ?_, ?_⟩
            · show List.Subperm (st₂.out ++ st₂.buffer) ((o ++ b) ++ [e])
              rw [h2, h3]
              show List.Subperm (o ++ (b ++ [e]) ++ []) ((o ++ b) ++ [e])
              rw [List.append_nil, ← List.append_assoc]
            · intro _; exact h1
            · exact ⟨b ++ [e], by simpa using h3⟩
            · intro _
              exact ⟨fun hB => absurd (h1 ▸ hB) (by simp), fun _ => h2⟩
          · rename_i hl hs
            simp at h
        · -- no trigger: the entry is buffered
          rename_i hcond
          simp only [Except.ok.injEq] at h
          subst h
          refine ⟨rfl, rfl, ?_, ?_, ⟨[], by simp⟩, ?_⟩
          · show List.Subperm (o ++ (b ++ [e])) ((o ++ b) ++ [e])
            rw [← List.append_assoc]
          · intro hS; simp at hS
          · intro _
            refine ⟨?_, ?_⟩
            · intro _
              show (b ++ [e]).length ≤ MAX_BUFFER_LENGTH
              simp only [List.length_append, List.length_cons,
                List.length_nil] at hcond ⊢
              omega
            · intro hS; simp at hS
      | Streaming =>
        simp only [poll] at h
        split at h
        · rename_i st₁ hp
          split at h
          · rename_i st₂ hf
            simp only [Except.ok.injEq] at h
            subst h
            have he := print_ok hp
            subst he
            have hfe := flush_ok hf
            subst hfe
            refine ⟨rfl, rfl, ?_, fun _ => rfl, ⟨[e], rfl⟩, ?_⟩
            · show List.Subperm ((o ++ [e]) ++ b) ((o ++ b) ++ [e])
              exact (append_singleton_perm o b e).subperm
            · intro hInv
              exact ⟨fun hB => by simp at hB, fun _ => hInv.2 rfl⟩
          · simp at h
        · simp at h
    | Error mg =>
      simp only [poll] at h
      simp only [Except.ok.injEq] at h
      subst h
      refine ⟨rfl, rfl, ?_, fun hS => hS, ⟨[], by simp⟩, fun hI => hI⟩
      rw [receivedEntries_error, receivedEntries_nil, List.append_nil]
  | timeout =>
    rw [poll_timeout] at h
    obtain ⟨h1, h2, h3, h4, h5, h6⟩ := stream_ok h
    refine ⟨h5, h6, ?_, fun _ => h1, ⟨_, h3⟩, ?_⟩
    · rw [h2, h3, receivedEntries_timeout, receivedEntries_nil,
        List.append_nil]
    · intro _
      exact ⟨fun hB => absurd (h1 ▸ hB) (by simp), fun _ => h2⟩
  | disconnected => exact absurd h stop_not_ok

lemma poll_halt_spec {σ : SinkBehavior} {st : ReceiverBuffer}
    {ev : RecvOutcome} {hl : Halt} (h : poll σ st ev = .error hl) :
    hl.state.quit_flag = st.quit_flag ∧
    hl.state.interrupt_flag = st.interrupt_flag ∧
    List.Subperm (hl.state.out ++ hl.state.buffer)
      ((st.out ++ st.buffer) ++ receivedEntries [ev]) ∧
    (∀ ec st₂, hl = .errCode ec st₂ →
      ec = .GeneralError ∨ ec = .HasResults (decide (0 < st₂.num_results))) := by
  obtain ⟨q, i, m, b, n, o, s, el⟩ := st
  cases ev with
  | msg w =>
    cases w with
    | Entry e =>
      cases m with
      | Buffering =>
        simp only [poll] at h
        split at h
        · split at h
          · simp at h
          · rename_i hl' hs
            simp only [Except.error.injEq] at h
            rw [h] at hs
            obtain ⟨ec, st₂, hcase, hmode, hbuf, hnum, hq, hi, t, hout, hsub⟩ :=
              stream_halt hs
            have hstate : hl.state = st₂ := by
              cases hcase with
              | inl hc => rw [hc]; rfl
              | inr hc => rw [hc]; rfl
            rw [receivedEntries_entry, receivedEntries_nil]
            refine ⟨by rw [hstate]; simpa using hq,
              by rw [hstate]; simpa using hi, ?_, ?_⟩
            · rw [hstate, hbuf, hout, List.append_nil]
              show List.Subperm (o ++ t) ((o ++ b) ++ [e])
              rw [List.append_assoc]
              exact (List.subperm_append_left o).mpr (by simpa using hsub)
            · intro ec₂ st₃ heq
              cases hcase with
              | inl hc => rw [heq] at hc; simp at hc
              | inr hc =>
                rw [heq] at hs
                exact Or.inl (stream_halt_errCode hs)
        · simp at h
      | Streaming =>
        simp only [poll] at h
        split at h
        · rename_i st₁ hp
          split at h
          · simp at h
          · rename_i hl' hf
            simp only [Except.error.injEq] at h
            rw [h] at hf
            have hfe := flush_halt hf
            subst hfe
            have he := print_ok hp
            subst he
            rw [receivedEntries_entry, receivedEntries_nil]
            refine ⟨rfl, rfl, ?_, ?_⟩
            · show List.Subperm ((o ++ [e]) ++ b) ((o ++ b) ++ [e])
              exact (append_singleton_perm o b e).subperm
            · intro ec₂ st₃ heq
              injection heq with h1 h2
              exact Or.inl h1.symm
        · rename_i hl' hp
          simp only [Except.error.injEq] at h
          rw [h] at hp
          obtain ⟨ec, st₂, hc, hq, hi, hmode, hbuf, hnum, hout⟩ := print_halt hp
          subst hc
          rw [receivedEntries_entry, receivedEntries_nil]
          refine ⟨by simpa using hq, by simpa using hi, ?_, ?_⟩
          · show List.Subperm (st₂.out ++ st₂.buffer) ((o ++ b) ++ [e])
            rw [hout, hbuf]
            show List.Subperm (o ++ b) ((o ++ b) ++ [e])
            exact (List.sublist_append_left (o ++ b) [e]).subperm
          · intro ec₂ st₃ heq
            simp at heq
    | Error mg => simp only [poll] at h; simp at h
  | timeout =>
    rw [poll_timeout] at h
    obtain ⟨ec, st₂, hcase, hmode, hbuf, hnum, hq, hi, t, hout, hsub⟩ :=
      stream_halt h
    have hstate : hl.state = st₂ := by
      cases hcase with
      | inl hc => rw [hc]; rfl
      | inr hc => rw [hc]; rfl
    rw [receivedEntries_timeout, receivedEntries_nil, List.append_nil]
    refine ⟨by rw [hstate]; simpa using hq, by rw [hstate]; simpa using hi,
      ?_, ?_⟩
    · rw [hstate, hbuf, hout, List.append_nil]
      show List.Subperm (o ++ t) (o ++ b)
      exact (List.subperm_append_left o).mpr (by simpa using hsub)
    · intro ec₂ st₃ heq
      cases hcase with
      | inl hc => rw [heq] at hc; simp at hc
      | inr hc =>
        rw [heq] at h
        exact Or.inl (stream_halt_errCode h)
  | disconnected =>
    rw [poll_disconnected] at h
    obtain ⟨hq, hi, hsub, hnum, hshape⟩ := stop_halt_spec h
    rw [receivedEntries_disconnected, receivedEntries_nil, List.append_nil]
    exact ⟨by simpa using hq, by simpa using hi, by simpa using hsub, hshape⟩

lemma receivedEntries_cons (ev : RecvOutcome) (evs : List RecvOutcome) :
    receivedEntries (ev :: evs) =
      receivedEntries [ev] ++ receivedEntries evs := by
  cases ev with
  | msg w =>
    cases w with
    | Entry e => rw [receivedEntries_entry, receivedEntries_entry,
        receivedEntries_nil, List.singleton_append]
    | Error m => rw [receivedEntries_error, receivedEntries_error,
        receivedEntries_nil, List.nil_append]
  | timeout => rw [receivedEntries_timeout, receivedEntries_timeout,
      receivedEntries_nil, List.nil_append]
  | disconnected => rw [receivedEntries_disconnected,
      receivedEntries_disconnected, receivedEntries_nil, List.nil_append]

lemma process_append (σ : SinkBehavior) (evs₁ evs₂ : List RecvOutcome)
    (st : ReceiverBuffer) :
    process σ (evs₁ ++ evs₂) st =
      match process σ evs₁ st with
      | .done ec st' => .done ec st'
      | .exited ec st' => .exited ec st'
      | .pending st' => process σ evs₂ st' := by
  induction evs₁ generalizing st with
  | nil => rfl
  | cons ev rest ih =>
    show process σ (ev :: (rest ++ evs₂)) st = _
    rw [process, process]
    cases hp : poll σ st ev with
    | ok st' => exact ih st'
    | error hl => cases hl <;> rfl

lemma process_pending_inv {σ : SinkBehavior} {evs : List RecvOutcome} :
    ∀ {st st' : ReceiverBuffer}, Inv st →
      process σ evs st = .pending st' → Inv st' := by
  induction evs with
  | nil =>
    intro st st' hInv h
    rw [process] at h
    simp only [ProcResult.pending.injEq] at h
    exact h ▸ hInv
  | cons ev rest ih =>
    intro st st' hInv h
    rw [process] at h
    cases hp : poll σ st ev with
    | ok st₁ =>
      rw [hp] at h
      exact ih ((poll_ok_spec hp).2.2.2.2.2 hInv) h
    | error hl => rw [hp] at h; cases hl <;> simp at h

lemma process_pending_mono {σ : SinkBehavior} {evs : List RecvOutcome} :
    ∀ {st st' : ReceiverBuffer}, st.mode = .Streaming →
      process σ evs st = .pending st' → st'.mode = .Streaming := by
  induction evs with
  | nil =>
    intro st st' hm h
    rw [process] at h
    simp only [ProcResult.pending.injEq] at h
    exact h ▸ hm
  | cons ev rest ih =>
    intro st st' hm h
    rw [process] at h
    cases hp : poll σ st ev with
    | ok st₁ =>
      rw [hp] at h
      exact ih ((poll_ok_spec hp).2.2.2.1 hm) h
    | error hl => rw [hp] at h; cases hl <;> simp at h

lemma process_done_quit {σ : SinkBehavior} {evs : List RecvOutcome} :
    ∀ {st st' : ReceiverBuffer} {ec : ExitCode},
      process σ evs st = .done ec st' → st'.quit_flag = true := by
  induction evs with
  | nil => intro st st' ec h; rw [process] at h; simp at h
  | cons ev rest ih =>
    intro st st' ec h
    rw [process] at h
    cases hp : poll σ st ev with
    | ok st₁ => rw [hp] at h; exact ih h
    | error hl =>
      rw [hp] at h
      cases hl with
      | errCode ec₂ st₂ =>
        simp only [ProcResult.done.injEq] at h
        rw [← h.2]
      | exited ec₂ st₂ => simp at h

lemma process_interrupt (σ : SinkBehavior) (evs : List RecvOutcome) :
    ∀ st : ReceiverBuffer,
      (process σ evs st).state.interrupt_flag = st.interrupt_flag := by
  induction evs with
  | nil => intro st; rfl
  | cons ev rest ih =>
    intro st
    rw [process]
    cases hp : poll σ st ev with
    | ok st₁ => rw [ih st₁, (poll_ok_spec hp).2.1]
    | error hl =>
      cases hl with
      | errCode ec₂ st₂ =>
        show st₂.interrupt_flag = st.interrupt_flag
        exact (poll_halt_spec hp).2.1
      | exited ec₂ st₂ =>
        show st₂.interrupt_flag = st.interrupt_flag
        exact (poll_halt_spec hp).2.1

lemma process_subperm (σ : SinkBehavior) (evs : List RecvOutcome) :
    ∀ st : ReceiverBuffer,
      List.Subperm
        ((process σ evs st).state.out ++ (process σ evs st).state.buffer)
        ((st.out ++ st.buffer) ++ receivedEntries evs) := by
  induction evs with
  | nil =>
    intro st
    rw [receivedEntries_nil, List.append_nil]
    show List.Subperm (st.out ++ st.buffer) (st.out ++ st.buffer)
    exact List.Subperm.refl _
  | cons ev rest ih =>
    intro st
    rw [process, receivedEntries_cons, ← List.append_assoc]
    cases hp : poll σ st ev with
    | ok st₁ =>
      refine (ih st₁).trans ?_
      exact (List.subperm_append_right _).mpr (poll_ok_spec hp).2.2.1
    | error hl =>
      have hsub := (poll_halt_spec hp).2.2.1
      have hext : List.Subperm ((st.out ++ st.buffer) ++ receivedEntries [ev])
          (((st.out ++ st.buffer) ++ receivedEntries [ev]) ++
            receivedEntries rest) :=
        (List.sublist_append_left _ _).subperm
      cases hl with
      | errCode ec₂ st₂ =>
        show List.Subperm (st₂.out ++ st₂.buffer) _
        exact (hsub.trans hext)
      | exited ec₂ st₂ =>
        show List.Subperm (st₂.out ++ st₂.buffer) _
        exact (hsub.trans hext)

lemma process_done_shape {σ : SinkBehavior} {evs : List RecvOutcome} :
    ∀ {st st' : ReceiverBuffer} {ec : ExitCode},
      process σ evs st = .done ec st' →
      ec = .GeneralError ∨ ec = .HasResults (decide (0 < st'.num_results)) := by
  induction evs with
  | nil => intro st st' ec h; rw [process] at h; simp at h
  | cons ev rest ih =>
    intro st st' ec h
    rw [process] at h
    cases hp : poll σ st ev with
    | ok st₁ => rw [hp] at h; exact ih h
    | error hl =>
      rw [hp] at h
      cases hl with
      | errCode ec₂ st₂ =>
        simp only [ProcResult.done.injEq] at h
        rcases h with ⟨rfl, rfl⟩
        have := (poll_halt_spec hp).2.2.2 ec₂ st₂ rfl
        simpa using this
      | exited ec₂ st₂ => simp at h

lemma printAll_sinkOk : ∀ (l : List DirEntry) (st : ReceiverBuffer),
    printAll sinkOk st l =
      .ok { st with out := st.out ++ l,
                    sink_ops := st.sink_ops + l.length } := by
  intro l
  induction l with
  | nil =>
    intro st
    simp only [printAll, List.append_nil, List.length_nil, Nat.add_zero]
  | cons e rest ih =>
    intro st
    rw [printAll]
    have hp : print sinkOk st e =
        .ok { st with out := st.out ++ [e], sink_ops := st.sink_ops + 1 } := rfl
    rw [hp]
    show printAll sinkOk
      { st with out := st.out ++ [e], sink_ops := st.sink_ops + 1 } rest = _
    rw [ih]
    simp only [Except.ok.injEq, ReceiverBuffer.mk.injEq, List.append_assoc,
      List.singleton_append, List.length_cons, and_true, true_and]
    omega

lemma stream_sinkOk (st : ReceiverBuffer) :
    stream sinkOk st =
      .ok { st with mode := .Streaming, buffer := [],
                    out := st.out ++ st.buffer,
                    sink_ops := st.sink_ops + st.buffer.length + 1 } := by
  rw [stream]
  rw [printAll_sinkOk]
  rfl

lemma stop_sinkOk_buffering {st : ReceiverBuffer} (hm : st.mode = .Buffering) :
    stop sinkOk st =
      .error (.errCode (.HasResults (decide (0 < st.num_results)))
        { st with
            mode := .Streaming,
            buffer := [],
            out := st.out ++ List.insertionSort DirEntry.le st.buffer,
            sink_ops := st.sink_ops +
              (List.insertionSort DirEntry.le st.buffer).length + 1 }) := by
  rw [stop, if_pos hm, stream_sinkOk]

lemma process_fill {σ : SinkBehavior} :
    ∀ (entries : List DirEntry) (st : ReceiverBuffer),
      st.mode = .Buffering →
      st.buffer.length + entries.length ≤ MAX_BUFFER_LENGTH →
      process σ (entries.map fun e => .msg (.Entry e)) st =
        .pending { st with buffer := st.buffer ++ entries,
                           num_results := st.num_results + entries.length } := by
  intro entries
  induction entries with
  | nil =>
    intro st hm hlen
    simp only [List.map_nil, process, List.append_nil, List.length_nil,
      Nat.add_zero]
  | cons e rest ih =>
    intro st hm hlen
    rw [List.map_cons, process,
      poll_entry_buffering_small hm
        (by simp only [List.length_cons] at hlen; omega)]
    show process σ (rest.map fun e => .msg (.Entry e))
      { st with buffer := st.buffer ++ [e],
                num_results := st.num_results + 1 } = _
    rw [ih _
      (show ({ st with
            buffer := st.buffer ++ [e],
            num_results := st.num_results + 1 } : ReceiverBuffer).mode =
          .Buffering from hm)
      (by simp only [List.length_append, List.length_cons, List.length_nil,
        List.length_cons] at hlen ⊢; omega)]
    simp only [ProcResult.pending.injEq, ReceiverBuffer.mk.injEq,
      List.append_assoc, List.singleton_append, List.length_cons, and_true,
      true_and]
    omega

lemma process_fill_new (σ : SinkBehavior) (entries : List DirEntry)
    (intr : Bool) (hlen : entries.length ≤ MAX_BUFFER_LENGTH) :
    process σ (entries.map fun e => .msg (.Entry e)) (new intr) =
      .pending { new intr with buffer := entries,
                               num_results := entries.length } := by
  rw [process_fill entries (new intr) rfl (by simpa [new] using hlen)]
  simp [new]

end ReceiverBuffer

/-- Example entry with path a (a plain file). -/
def entA : DirEntry := ⟨"a", 1, none⟩

/-- Example entry with path b (a directory), greater than entA in the
path order. -/
def entB : DirEntry := ⟨"b", 1, some .directory⟩

namespace ReceiverBuffer

/-- A small Buffering state holding two entries received in non-sorted
order. -/
def stSmall : ReceiverBuffer :=
  { quit_flag := false, interrupt_flag := false, mode := .Buffering,
    buffer := [entB, entA], num_results := 2, out := [], sink_ops := 0,
    err_log := [] }

/-- The state stSmall reaches when its buffer is flushed by stream on a
fully working sink. -/
def stSmallStreamed : ReceiverBuffer :=
  { quit_flag := false, interrupt_flag := false, mode := .Streaming,
    buffer := [], num_results := 2, out := [entB, entA], sink_ops := 3,
    err_log := [] }

/-- A Buffering state whose buffer already holds the threshold number of
entries, so that one more received entry breaches it. -/
def stBig : ReceiverBuffer :=
  { quit_flag := false, interrupt_flag := false, mode := .Buffering,
    buffer := List.replicate MAX_BUFFER_LENGTH entA,
    num_results := MAX_BUFFER_LENGTH, out := [], sink_ops := 0,
    err_log := [] }

/-- The state stBig reaches after pushing one more entry, breaching the
threshold. -/
def stBigPushed : ReceiverBuffer :=
  { stBig with buffer := stBig.buffer ++ [entA] }

/-- The state stBigPushed reaches when its buffer is flushed by stream
on a fully working sink. -/
def stBigStreamed : ReceiverBuffer :=
  { stBigPushed with
      mode := .Streaming,
      buffer := [],
      out := stBigPushed.out ++ stBigPushed.buffer,
      sink_ops := stBigPushed.sink_ops + stBigPushed.buffer.length + 1 }

/-- The state after the size-trigger iteration completes (the flushed
state with the newly received entry counted). -/
def stBigFinal : ReceiverBuffer :=
  { stBigStreamed with num_results := stBigStreamed.num_results + 1 }

/-- C1 counterexample: a scan that receives the entries with paths b
then a while Buffering and then leaves Buffering mode by the receive
timeout emits the buffered entries in arrival order b, a, which is not
sorted by path. -/
theorem buffering_flush_unsorted_cex :
    (process sinkOk
        [.msg (.Entry entB), .msg (.Entry entA), .timeout]
        (new false)).state.out = [entB, entA] ∧
    (process sinkOk
        [.msg (.Entry entB), .msg (.Entry entA), .timeout]
        (new false)).state.mode = .Streaming ∧
    ¬ DirEntry.le entB entA := by
  refine ⟨rfl, rfl, ?_⟩
  show ¬ entB.path ≤ entA.path
  rw [String.le_iff_toList_le]
  decide

/-- C1 amended: when the receiver leaves Buffering mode by the size
trigger or by the receive timeout, the buffered entries are emitted at
that transition in arrival order (not sorted), before any subsequently
received entry is printed: both triggers invoke stream, stream appends
the buffer to the output unchanged and in order, and every loop
iteration only ever appends to the output. -/
theorem buffering_flush_arrival_order (σ : SinkBehavior)
    (st stB : ReceiverBuffer) (e : DirEntry)
    (_hm : st.mode = .Buffering) (hmB : stB.mode = .Buffering)
    (hlen : MAX_BUFFER_LENGTH ≤ stB.buffer.length) :
    (∀ st', stream σ st = .ok st' →
      st'.out = st.out ++ st.buffer ∧ st'.mode = .Streaming ∧
      st'.buffer = []) ∧
    poll σ st .timeout = stream σ st ∧
    (∀ s, stream σ { stB with buffer := stB.buffer ++ [e] } = .ok s →
      poll σ stB (.msg (.Entry e)) =
        .ok { s with num_results := s.num_results + 1 }) ∧
    (∀ ev st', poll σ st ev = .ok st' → ∃ t, st'.out = st.out ++ t) := by
  refine ⟨?_, poll_timeout σ st, ?_, ?_⟩
  · intro st' hs
    obtain ⟨h1, h2, h3, _, _, _⟩ := stream_ok hs
    exact ⟨h3, h1, h2⟩
  · intro s hs
    rw [poll_entry_buffering_trigger hmB hlen, hs]
  · intro ev st' hp
    exact (poll_ok_spec hp).2.2.2.2.1

/-- C1 witness: the amended statement instantiated at the two concrete
Buffering states, with every hypothesis discharged. -/
theorem buffering_flush_arrival_order_witness :
    (stSmallStreamed.out = stSmall.out ++ stSmall.buffer ∧
      stSmallStreamed.mode = .Streaming ∧ stSmallStreamed.buffer = []) ∧
    poll sinkOk stSmall .timeout = stream sinkOk stSmall ∧
    poll sinkOk stBig (.msg (.Entry entA)) = .ok stBigFinal ∧
    (∃ t, stSmallStreamed.out = stSmall.out ++ t) := by
  have h := buffering_flush_arrival_order sinkOk stSmall stBig entA rfl rfl
    (by simp [stBig])
  obtain ⟨h1, h2, h3, h4⟩ := h
  have hs : stream sinkOk stSmall = .ok stSmallStreamed := rfl
  have hsB : stream sinkOk stBigPushed = .ok stBigStreamed :=
    stream_sinkOk stBigPushed
  refine ⟨h1 stSmallStreamed hs, h2, ?_, ?_⟩
  · exact h3 stBigStreamed hsB
  · exact h4 .timeout stSmallStreamed (by rw [poll_timeout]; exact hs)

/-- C2: when a scan discovers at most the threshold number of non-root
entries and its channel disconnects while the receiver is still
Buffering (no timeout fired), the receive loop terminates through stop
and the output is exactly the received entries sorted by path, each
appearing exactly once. -/
theorem small_scan_sorted_output (entries : List DirEntry) (intr : Bool)
    (hlen : entries.length ≤ MAX_BUFFER_LENGTH) :
    ∃ st, process sinkOk
        ((entries.map fun e => .msg (.Entry e)) ++ [.disconnected])
        (new intr) =
        .done (.HasResults (decide (0 < entries.length))) st ∧
      List.Perm st.out entries ∧ List.Sorted DirEntry.le st.out ∧
      (entries.Nodup → st.out.Nodup) ∧
      (∀ e, st.out.count e = entries.count e) := by
  refine ⟨{ quit_flag := true,
            interrupt_flag := intr,
            mode := .Streaming,
            buffer := [],
            num_results := entries.length,
            out := List.insertionSort DirEntry.le entries,
            sink_ops := (List.insertionSort DirEntry.le entries).length + 1,
            err_log := [] }, ?_, ?_, ?_, ?_, ?_⟩
  · rw [process_append, process_fill_new sinkOk entries intr hlen]
    show process sinkOk [.disconnected]
      { new intr with buffer := entries, num_results := entries.length } = _
    rw [process, poll_disconnected, stop_sinkOk_buffering rfl]
    simp [new]
  · exact List.perm_insertionSort DirEntry.le entries
  · exact List.sorted_insertionSort DirEntry.le entries
  · intro hnd
    exact ((List.perm_insertionSort DirEntry.le entries).nodup_iff).mpr hnd
  · intro e
    exact (List.perm_insertionSort DirEntry.le entries).count_eq e

/-- C2 witness: a concrete two-entry scan received out of order and
disconnecting while Buffering yields the sorted output. -/
theorem small_scan_sorted_output_witness :
    ∃ st, process sinkOk
        (([entB, entA].map fun e => .msg (.Entry e)) ++ [.disconnected])
        (new false) =
        .done (.HasResults (decide (0 < [entB, entA].length))) st ∧
      List.Perm st.out [entB, entA] ∧ List.Sorted DirEntry.le st.out ∧
      ([entB, entA].Nodup → st.out.Nodup) ∧
      (∀ e, st.out.count e = [entB, entA].count e) :=
  small_scan_sorted_output [entB, entA] false (by decide)

/-- A sink whose first n operations succeed and whose later operations
fail with a non-broken-pipe error. -/
def sinkFailAfter (n : Nat) : SinkBehavior :=
  fun k => if k < n then none else some .other

/-- A sink on which every operation fails with a non-broken-pipe
error. -/
def sinkFail : SinkBehavior := fun _ => some .other

/-- A sink on which every operation fails with a broken pipe. -/
def sinkPipe : SinkBehavior := fun _ => some .brokenPipe

/-- C3 counterexample: a scan on a sink whose flush fails terminates
with the GeneralError classification, which is neither the success
classification nor a has-results classification, contradicting the
claimed graceful (success) termination; the quit flag is set and the
only write performed is the one that preceded the failing flush. -/
theorem sink_failure_not_success_cex :
    process (sinkFailAfter 1) [.msg (.Entry entA), .timeout] (new false) =
      .done .GeneralError
        { quit_flag := true, interrupt_flag := false, mode := .Streaming,
          buffer := [], num_results := 1, out := [entA], sink_ops := 1,
          err_log := [] } ∧
    scanExit (process (sinkFailAfter 1) [.msg (.Entry entA), .timeout]
      (new false)) = some .GeneralError ∧
    ExitCode.GeneralError ≠ .Success ∧
    (∀ b, ExitCode.GeneralError ≠ .HasResults b) := by
  refine ⟨rfl, rfl, by decide, by decide⟩

/-- C3 amended: a flush failure in either mode makes the receive loop
set the quit flag, perform no further writes and return the
general-error code (not a success classification); a broken-pipe write
failure terminates the process immediately with the success code,
without setting the quit flag and without further writes; any other
write failure reports an error message and terminates the process with
the general-error code. -/
theorem sink_failure_behavior :
    (∀ (σ : SinkBehavior) (st : ReceiverBuffer) (err : SinkErrorKind),
      σ st.sink_ops = some err →
      flush σ st = .error (.errCode .GeneralError st)) ∧
    (∀ (σ : SinkBehavior) (st : ReceiverBuffer) (ev : RecvOutcome)
      (ec : ExitCode) (st' : ReceiverBuffer) (rest : List RecvOutcome),
      poll σ st ev = .error (.errCode ec st') →
      process σ (ev :: rest) st = .done ec { st' with quit_flag := true }) ∧
    (∀ (σ : SinkBehavior) (st : ReceiverBuffer) (e : DirEntry),
      σ st.sink_ops = some .brokenPipe →
      print σ st e = .error (.exited .Success st)) ∧
    (∀ (σ : SinkBehavior) (st : ReceiverBuffer) (e : DirEntry),
      σ st.sink_ops = some .other →
      print σ st e = .error (.exited .GeneralError
        { st with err_log :=
            st.err_log ++ ["Could not write to output"] })) := by
  refine ⟨?_, ?_, ?_, ?_⟩
  · intro σ st err hσ
    cases err <;> simp [flush, hσ]
  · intro σ st ev ec st' rest hp
    rw [process, hp]
  · intro σ st e hσ
    simp [print, hσ]
  · intro σ st e hσ
    simp [print, hσ]

/-- C3 witness: the amended statement applied on concrete failing
sinks, with every hypothesis discharged. -/
theorem sink_failure_behavior_witness :
    flush sinkFail (new false) = .error (.errCode .GeneralError (new false)) ∧
    process sinkFail [.disconnected] (new false) =
      .done .GeneralError
        { (⟨false, false, .Streaming, [], 0, [], 0, []⟩ : ReceiverBuffer) with
            quit_flag := true } ∧
    print sinkPipe (new false) entA = .error (.exited .Success (new false)) ∧
    print sinkFail (new false) entA = .error (.exited .GeneralError
      { new false with err_log :=
          (new false).err_log ++ ["Could not write to output"] }) := by
  obtain ⟨h1, h2, h3, h4⟩ := sink_failure_behavior
  exact ⟨h1 sinkFail (new false) .other rfl,
    h2 sinkFail (new false) .disconnected .GeneralError
      ⟨false, false, .Streaming, [], 0, [], 0, []⟩ [] rfl,
    h3 sinkPipe (new false) entA rfl,
    h4 sinkFail (new false) entA rfl⟩

/-- C4 counterexample: a scan with no entries whose channel disconnects
terminates normally through stop, yet the consumer stores true into the
quit flag, contradicting the claim that the consumer does not set the
quit flag on a normal disconnect termination. -/
theorem quit_flag_normal_stop_cex :
    process sinkOk [.disconnected] (new false) =
      .done (.HasResults false)
        { quit_flag := true, interrupt_flag := false, mode := .Streaming,
          buffer := [], num_results := 0, out := [], sink_ops := 1,
          err_log := [] } ∧
    (new false).quit_flag = false :=
  ⟨rfl, rfl⟩

/-- C4 amended: the quit flag is never written by a worker (the
spawn_senders callback returns the shared flag unchanged on every
invocation, and a failed send only makes that worker quit its own
walk); the consumer stores true into the flag on every termination of
the receive loop, including a normal disconnect termination. -/
theorem quit_flag_discipline :
    (∀ (ch q : Bool) (ev : WalkEvent),
      (senderCallback ch q ev).quit_flag = q) ∧
    (∀ (q : Bool) (e : DirEntry), e.depth ≠ 0 →
      senderCallback false q (.ok e) = ⟨[], .Quit, q⟩) ∧
    (∀ (q : Bool) (m : String),
      senderCallback false q (.err m) = ⟨[], .Quit, q⟩) ∧
    (∀ (σ : SinkBehavior) (evs : List RecvOutcome)
      (st st' : ReceiverBuffer) (ec : ExitCode),
      process σ evs st = .done ec st' → st'.quit_flag = true) := by
  refine ⟨?_, ?_, ?_, ?_⟩
  · intro ch q ev
    cases ev <;> simp only [senderCallback] <;> split <;> first | rfl | split <;> rfl
  · intro q e hd
    simp [senderCallback, hd]
  · intro q m
    simp [senderCallback]
  · intro σ evs st st' ec h
    exact process_done_quit h

/-- C4 witness: the amended statement applied at concrete callback
invocations and a concrete normally terminating scan. -/
theorem quit_flag_discipline_witness :
    (senderCallback true false (.ok entA)).quit_flag = false ∧
    senderCallback false false (.ok entA) = ⟨[], .Quit, false⟩ ∧
    senderCallback false false (.err "denied") = ⟨[], .Quit, false⟩ ∧
    ({ quit_flag := true, interrupt_flag := false, mode := .Streaming,
       buffer := [], num_results := 0, out := [], sink_ops := 1,
       err_log := [] } : ReceiverBuffer).quit_flag = true := by
  obtain ⟨h1, h2, h3, h4⟩ := quit_flag_discipline
  exact ⟨h1 true false (.ok entA), h2 false entA (by decide),
    h3 false "denied",
    h4 sinkOk [.disconnected] (new false) _ (.HasResults false) rfl⟩

/-- C5 counterexample: a scan interrupted by a sink flush failure after
one result has been counted is classified GeneralError, which is
neither a has-results nor a no-results nor the interrupted
classification, so the claimed equivalence between the result counter
and the final classification fails on such scans. -/
theorem exit_classification_sink_cex :
    process (sinkFailAfter 1) [.msg (.Entry entA), .timeout] (new false) =
      .done .GeneralError
        { quit_flag := true, interrupt_flag := false, mode := .Streaming,
          buffer := [], num_results := 1, out := [entA], sink_ops := 1,
          err_log := [] } ∧
    0 < ({ quit_flag := true, interrupt_flag := false, mode := .Streaming,
           buffer := [], num_results := 1, out := [entA], sink_ops := 1,
           err_log := [] } : ReceiverBuffer).num_results ∧
    scanExit (process (sinkFailAfter 1) [.msg (.Entry entA), .timeout]
      (new false)) = some .GeneralError ∧
    (∀ b, ExitCode.GeneralError ≠ .HasResults b) ∧
    ExitCode.GeneralError ≠ .KilledBySigint := by
  refine ⟨rfl, by decide, rfl, by decide, by decide⟩

/-- C5 amended: for every scan whose receive loop returns an exit code,
the interrupt flag observed at stop time is the externally supplied
one; the final classification is KilledBySigint when that flag is set
and otherwise the returned code; and the returned code is either the
general error produced by a sink failure or HasResults(b) where b holds
exactly when the result counter is positive. -/
theorem exit_classification (σ : SinkBehavior) (events : List RecvOutcome)
    (intr : Bool) (ec : ExitCode) (st' : ReceiverBuffer)
    (h : process σ events (new intr) = .done ec st') :
    st'.interrupt_flag = intr ∧
    scanExit (process σ events (new intr)) =
      some (if intr then .KilledBySigint else ec) ∧
    (ec = .GeneralError ∨ ec = .HasResults (decide (0 < st'.num_results))) := by
  have hi : st'.interrupt_flag = intr := by
    have h2 := process_interrupt σ events (new intr)
    rw [h] at h2
    exact h2
  refine ⟨hi, ?_, process_done_shape h⟩
  rw [h]
  show some (if st'.interrupt_flag then ExitCode.KilledBySigint else ec) = _
  rw [hi]

/-- C5 witness: the amended statement applied to a concrete scan that
disconnects with no results and no interrupt. -/
theorem exit_classification_witness :
    ({ quit_flag := true, interrupt_flag := false, mode := .Streaming,
       buffer := [], num_results := 0, out := [], sink_ops := 1,
       err_log := [] } : ReceiverBuffer).interrupt_flag = false ∧
    scanExit (process sinkOk [.disconnected] (new false)) =
      some (if false then .KilledBySigint else .HasResults false) ∧
    (ExitCode.HasResults false = .GeneralError ∨
      ExitCode.HasResults false = .HasResults (decide (0 <
        ({ quit_flag := true, interrupt_flag := false, mode := .Streaming,
           buffer := [], num_results := 0, out := [], sink_ops := 1,
           err_log := [] } : ReceiverBuffer).num_results))) :=
  exit_classification sinkOk [.disconnected] false (.HasResults false) _ rfl

/-- The state a fresh receiver reaches after the buffering deadline
fires with nothing buffered, on a fully working sink. -/
def stTimedOut : ReceiverBuffer :=
  { quit_flag := false, interrupt_flag := false, mode := .Streaming,
    buffer := [], num_results := 0, out := [], sink_ops := 1,
    err_log := [] }

/-- C6: the depth-0 root callback sends nothing on the channel (so the
root never reaches the receiver); every entry a worker sends comes from
a non-root callback; and the receiver prints each received entry at
most once: in every run the printed output is a subpermutation of the
received entries, so distinct received entries are never duplicated and
nothing outside the received entries (in particular no depth-0 entry)
ever appears. -/
theorem no_duplicates_no_root :
    (∀ (ch q : Bool) (e : DirEntry), e.depth = 0 →
      senderCallback ch q (.ok e) = ⟨[], .Continue, q⟩) ∧
    (∀ (ch q : Bool) (ev : WalkEvent) (e : DirEntry),
      WorkerResult.Entry e ∈ (senderCallback ch q ev).sent →
      ev = WalkEvent.ok e ∧ e.depth ≠ 0) ∧
    (∀ (σ : SinkBehavior) (events : List RecvOutcome) (intr : Bool),
      List.Subperm (process σ events (new intr)).state.out
        (receivedEntries events) ∧
      ((receivedEntries events).Nodup →
        (process σ events (new intr)).state.out.Nodup) ∧
      (∀ e, e ∈ (process σ events (new intr)).state.out →
        e ∈ receivedEntries events) ∧
      ((∀ e, e ∈ receivedEntries events → e.depth ≠ 0) →
        ∀ e, e ∈ (process σ events (new intr)).state.out →
          e.depth ≠ 0)) := by
  refine ⟨?_, ?_, ?_⟩
  · intro ch q e h0
    simp [senderCallback, h0]
  · intro ch q ev e hmem
    cases ev with
    | ok e2 =>
      by_cases h0 : e2.depth = 0
      · simp [senderCallback, h0] at hmem
      · cases ch with
        | true =>
          simp [senderCallback, h0] at hmem
          subst hmem
          exact ⟨rfl, h0⟩
        | false => simp [senderCallback, h0] at hmem
    | err m => cases ch <;> simp [senderCallback] at hmem
  · intro σ events intr
    have hsub : List.Subperm (process σ events (new intr)).state.out
        (receivedEntries events) := by
      have h0 := process_subperm σ events (new intr)
      have h1 : List.Subperm (process σ events (new intr)).state.out
          ((process σ events (new intr)).state.out ++
            (process σ events (new intr)).state.buffer) :=
        (List.sublist_append_left _ _).subperm
      have h2 := h1.trans h0
      simpa [new] using h2
    refine ⟨hsub, ?_, ?_, ?_⟩
    · intro hnd
      obtain ⟨w, hperm, hsl⟩ := hsub
      exact (hperm.nodup_iff).mp (hsl.nodup hnd)
    · intro e he
      exact hsub.subset he
    · intro hroot e he
      exact hroot e (hsub.subset he)

/-- C6 witness: the root callback sends nothing, and a concrete
two-entry scan prints a duplicate-free subpermutation of what was
received. -/
theorem no_duplicates_no_root_witness :
    senderCallback true false (.ok ⟨".", 0, some .directory⟩) =
      ⟨[], .Continue, false⟩ ∧
    List.Subperm
      (process sinkOk [.msg (.Entry entA), .msg (.Entry entB),
        .disconnected] (new false)).state.out
      (receivedEntries [.msg (.Entry entA), .msg (.Entry entB),
        .disconnected]) ∧
    (process sinkOk [.msg (.Entry entA), .msg (.Entry entB),
      .disconnected] (new false)).state.out.Nodup := by
  obtain ⟨h1, _, h3⟩ := no_duplicates_no_root
  refine ⟨h1 true false ⟨".", 0, some .directory⟩ rfl, ?_, ?_⟩
  · exact (h3 sinkOk [.msg (.Entry entA), .msg (.Entry entB),
      .disconnected] false).1
  · exact (h3 sinkOk [.msg (.Entry entA), .msg (.Entry entB),
      .disconnected] false).2.1 (by decide)

/-- C7: between receive-loop iterations the buffer of a Buffering
receiver holds at most MAX_BUFFER_LENGTH entries, and an iteration that
receives an entry while the buffer already holds the threshold ends in
Streaming mode (the breach forces the transition before the next
receive). -/
theorem buffer_bound (σ : SinkBehavior) (events : List RecvOutcome)
    (intr : Bool) (st stB st' : ReceiverBuffer) (e : DirEntry)
    (h : process σ events (new intr) = .pending st)
    (hmB : stB.mode = .Buffering)
    (hlenB : MAX_BUFFER_LENGTH ≤ stB.buffer.length)
    (hp : poll σ stB (.msg (.Entry e)) = .ok st') :
    (st.mode = .Buffering → st.buffer.length ≤ MAX_BUFFER_LENGTH) ∧
    st'.mode = .Streaming := by
  refine ⟨(process_pending_inv (new_inv intr) h).1, ?_⟩
  rw [poll_entry_buffering_trigger hmB hlenB] at hp
  cases hs : stream σ { stB with buffer := stB.buffer ++ [e] } with
  | ok s =>
    rw [hs] at hp
    simp only [Except.ok.injEq] at hp
    subst hp
    exact (stream_ok hs).1
  | error hl => rw [hs] at hp; simp at hp

/-- C7 witness: the bound holds in the initial state, and pushing one
entry onto a full threshold buffer lands in Streaming mode. -/
theorem buffer_bound_witness :
    (new false).buffer.length ≤ MAX_BUFFER_LENGTH ∧
    stBigFinal.mode = .Streaming := by
  have hp : poll sinkOk stBig (.msg (.Entry entA)) = .ok stBigFinal := by
    rw [poll_entry_buffering_trigger rfl (by simp [stBig]),
      show stream sinkOk { stBig with buffer := stBig.buffer ++ [entA] } =
        .ok stBigStreamed from stream_sinkOk stBigPushed]
    rfl
  have h := buffer_bound sinkOk [] false (new false) stBig stBigFinal entA
    rfl rfl (by simp [stBig]) hp
  exact ⟨h.1 rfl, h.2⟩

/-- C8: the receiver starts in Buffering mode, and the mode never
leaves Streaming: any longer run of the same scan that extends a run
whose state is already Streaming is still Streaming, so the
Buffering-to-Streaming transition happens at most once and never
reverses. -/
theorem mode_monotone (σ : SinkBehavior) (events extra : List RecvOutcome)
    (intr : Bool) (st st' : ReceiverBuffer)
    (h1 : process σ events (new intr) = .pending st)
    (h2 : process σ (events ++ extra) (new intr) = .pending st')
    (hm : st.mode = .Streaming) :
    (new intr).mode = .Buffering ∧ st'.mode = .Streaming := by
  refine ⟨rfl, ?_⟩
  rw [process_append, h1] at h2
  exact process_pending_mono hm h2

/-- C8 witness: a run that has switched to Streaming via the timeout is
still Streaming after the extended (identical) run. -/
theorem mode_monotone_witness :
    (new false).mode = .Buffering ∧ stTimedOut.mode = .Streaming :=
  mode_monotone sinkOk [.timeout] [] false stTimedOut stTimedOut rfl rfl rfl

/-- C10: every reachable receiver state in Streaming mode has an empty
pending buffer, and a channel disconnect in Streaming mode stops
immediately with the has-results code computed from the counter,
leaving the state untouched, so no buffered entry is lost. -/
theorem streaming_buffer_empty (σ : SinkBehavior)
    (events : List RecvOutcome) (intr : Bool) (st : ReceiverBuffer)
    (h : process σ events (new intr) = .pending st)
    (hm : st.mode = .Streaming) :
    st.buffer = [] ∧
    stop σ st =
      .error (.errCode (.HasResults (decide (0 < st.num_results))) st) := by
  refine ⟨(process_pending_inv (new_inv intr) h).2 hm, ?_⟩
  rw [stop, if_neg (by rw [hm]; simp)]

/-- C10 witness: the Streaming state reached by the timeout has an
empty buffer and disconnecting there stops with no-results. -/
theorem streaming_buffer_empty_witness :
    stTimedOut.buffer = [] ∧
    stop sinkOk stTimedOut =
      .error (.errCode
        (.HasResults (decide (0 < stTimedOut.num_results))) stTimedOut) :=
  streaming_buffer_empty sinkOk [.timeout] false stTimedOut rfl rfl

end ReceiverBuffer

/-- C9: for every entry, print_entry hands the sink exactly one line:
the stripped display path, a trailing platform separator exactly when
the entry is a directory, then the line terminator; when the display
path itself contains no terminator character the written text contains
exactly one. -/
theorem output_line_format (e : DirEntry)
    (hnl : ('\n') ∉ e.stripped_path.toList) :
    printed_line e = e.stripped_path ++
      (if (e.fileType.map FileType.isDirectory).getD false then
        String.singleton MAIN_SEPARATOR else "") ++ "\n" ∧
    (printed_line e).toList.count '\n' = 1 := by
  by_cases hd : (e.fileType.map FileType.isDirectory).getD false
  · refine ⟨?_, ?_⟩
    · rw [printed_line, print_entry_chunks, print_trailing_slash,
        if_pos hd, if_pos hd]
      rfl
    · rw [printed_line, print_entry_chunks, print_trailing_slash, if_pos hd]
      show ((e.stripped_path.toList ++ [MAIN_SEPARATOR]) ++
        [Char.ofNat 10]).count (Char.ofNat 10) = 1
      rw [List.count_append, List.count_append,
        List.count_eq_zero.mpr hnl]
      decide
  · refine ⟨?_, ?_⟩
    · rw [printed_line, print_entry_chunks, print_trailing_slash,
        if_neg hd, if_neg hd, String.append_empty]
      rfl
    · rw [printed_line, print_entry_chunks, print_trailing_slash, if_neg hd]
      show (e.stripped_path.toList ++ [Char.ofNat 10]).count
        (Char.ofNat 10) = 1
      rw [List.count_append, List.count_eq_zero.mpr hnl]
      decide

/-- C9 witness: the line printed for the concrete directory entry with
path b and for the plain entry with path a. -/
theorem output_line_format_witness :
    (printed_line entB = entB.stripped_path ++
      (if (entB.fileType.map FileType.isDirectory).getD false then
        String.singleton MAIN_SEPARATOR else "") ++ "\n" ∧
    (printed_line entB).toList.count '\n' = 1) ∧
    (printed_line entA = entA.stripped_path ++
      (if (entA.fileType.map FileType.isDirectory).getD false then
        String.singleton MAIN_SEPARATOR else "") ++ "\n" ∧
    (printed_line entA).toList.count '\n' = 1) :=
  ⟨output_line_format entB (by decide), output_line_format entA (by decide)⟩

end Fdx
